import Mathlib

set_option maxRecDepth 8000

/-!
Verification development for the `symcc` code-generation library.

The definitions below are a shallow embedding of the Python sources:
`symcc/types/routines.py` (Routine construction), `symcc/generators/codegen.py`,
`symcc/generators/ccodegen.py`, `symcc/generators/fcodegen.py` (code generators),
`symcc/wrappers/codewrapper.py` and `symcc/wrappers/ufuncify_wrapper.py`
(build orchestration).  The symbolic-expression engine and the per-language
expression printers (`symcc/printers/*`) are external collaborators that are
not part of the sources; where a definition depends on them it is modelled
from the specification's printer contract and is marked accordingly.
-/

namespace Symcc

/-! ## Character/string utilities

Python string operations used by the sources (`str.upper`, `str.replace` with a
single-character pattern, `"sep".join`, line splitting) are modelled by the
structurally recursive functions below so that every definition evaluates by
kernel reduction. -/

/-- The character `{` (written numerically). -/
def lbrace : Char := Char.ofNat 123

/-- The character `}` (written numerically). -/
def rbrace : Char := Char.ofNat 125

/-- ASCII upper-casing of a character, models Python `str.upper` per char. -/
def upChar (c : Char) : Char :=
  if 97 ≤ c.toNat ∧ c.toNat ≤ 122 then Char.ofNat (c.toNat - 32) else c

/-- ASCII lower-casing of a character, models Python `str.lower` per char. -/
def lowChar (c : Char) : Char :=
  if 65 ≤ c.toNat ∧ c.toNat ≤ 90 then Char.ofNat (c.toNat + 32) else c

/-- Models Python `s.upper()` for the ASCII subset used by the sources. -/
def upperStr (s : String) : String := ⟨s.data.map upChar⟩

/-- Models Python `s.lower()` for the ASCII subset used by the sources. -/
def lowerStr (s : String) : String := ⟨s.data.map lowChar⟩

/-- Models Python `s.replace(c, d)` for single-character patterns. -/
def replaceChar (c d : Char) (s : String) : String :=
  ⟨s.data.map (fun x => if x = c then d else x)⟩

/-- Models Python `"sep".join(items)`. -/
def joinWith (sep : String) : List String → String
  | [] => ""
  | [x] => x
  | x :: xs => x ++ sep ++ joinWith sep xs

/-- Concatenation of a list of strings (Python `''.join`). -/
def concatStrs (l : List String) : String := joinWith "" l

/-- Split a character list at newline characters. -/
def splitLines : List Char → List (List Char)
  | [] => [[]]
  | c :: t =>
    if c = '\n' then [] :: splitLines t
    else
      match splitLines t with
      | [] => [[c]]
      | h :: r => (c :: h) :: r

/-- Rejoin lines with newline characters (inverse of `splitLines`). -/
def joinNl : List (List Char) → List Char
  | [] => []
  | [l] => l
  | l :: r => l ++ '\n' :: joinNl r

/-- Substring test on character lists: is `p` a contiguous run of `l`? -/
def infixOf (p : List Char) : List Char → Bool
  | [] => p.isEmpty
  | c :: t => p.isPrefixOf (c :: t) || infixOf p t

/-- Substring test on strings (models Python `pat in s`). -/
def strContains (s pat : String) : Bool := infixOf pat.data s.data

/-- Lexicographic comparison of character lists by code point. -/
def charListLe : List Char → List Char → Bool
  | [], _ => true
  | _ :: _, [] => false
  | a :: as, b :: bs =>
    if a.toNat < b.toNat then true
    else if b.toNat < a.toNat then false
    else charListLe as bs

/-- Python's `<=` on strings: lexicographic by code point. -/
def pyStrLe (a b : String) : Bool := charListLe a.data b.data

/-! ## Data model (`symcc/types/routines.py`)

`Sym` models a sympy `Symbol` (or the label of an `IndexedBase`, or a
`MatrixSymbol` conflated to its name): an opaque structurally-comparable
identifier carrying the one assumption the sources query, `is_integer`. -/

structure Sym where
  name : String
  integer : Bool
deriving DecidableEq, Repr

/-- Scalar expressions of the external symbolic engine, restricted to the
structure the sources observe: free symbols, `Idx` atoms (the index lists of
`indexedRef`), `Indexed` atoms and `MatrixSymbol` atoms.  `indexedRef b shape
idxs` is an element `b[idxs]` of an array-like symbol with the given shape;
`matRef` is a `MatrixSymbol` occurring as a subexpression. -/
inductive SExpr
  | sym (s : Sym)
  | num (n : Int)
  | add (a b : SExpr)
  | mul (a b : SExpr)
  | indexedRef (base : Sym) (shape : List Nat) (idxs : List Sym)
  | matRef (s : Sym) (shape : List Nat)
deriving DecidableEq, Repr

namespace SExpr

/-- `free_symbols` of the engine: an `Indexed` contributes its base label and
its `Idx` labels; a `MatrixSymbol` contributes itself. -/
def freeSyms : SExpr → List Sym
  | sym s => [s]
  | num _ => []
  | add a b => a.freeSyms ++ b.freeSyms
  | mul a b => a.freeSyms ++ b.freeSyms
  | indexedRef base _ idxs => base :: idxs
  | matRef s _ => [s]

/-- Labels of the `Idx` atoms (`expressions.atoms(Idx)` with `.label`). -/
def idxAtoms : SExpr → List Sym
  | sym _ => []
  | num _ => []
  | add a b => a.idxAtoms ++ b.idxAtoms
  | mul a b => a.idxAtoms ++ b.idxAtoms
  | indexedRef _ _ idxs => idxs
  | matRef _ _ => []

/-- The `Indexed` atoms as (base label, shape) pairs. -/
def indexedAtoms : SExpr → List (Sym × List Nat)
  | sym _ => []
  | num _ => []
  | add a b => a.indexedAtoms ++ b.indexedAtoms
  | mul a b => a.indexedAtoms ++ b.indexedAtoms
  | indexedRef base shape _ => [(base, shape)]
  | matRef _ _ => []

/-- The `MatrixSymbol` atoms as (symbol, shape) pairs. -/
def matAtoms : SExpr → List (Sym × List Nat)
  | sym _ => []
  | num _ => []
  | add a b => a.matAtoms ++ b.matAtoms
  | mul a b => a.matAtoms ++ b.matAtoms
  | indexedRef _ _ _ => []
  | matRef s shape => [(s, shape)]

/-- `expr.has(symbol)`: does the symbol occur anywhere in the expression? -/
def has (e : SExpr) (s : Sym) : Bool :=
  match e with
  | sym t => t = s
  | num _ => false
  | add a b => a.has s || b.has s
  | mul a b => a.has s || b.has s
  | indexedRef base _ idxs => base = s || idxs.contains s
  | matRef t _ => t = s

/-- `expr.is_integer` of the engine for the modelled fragment: symbols carry
their assumption, integer literals are integer, sums and products of integers
are integer, indexed elements and matrix symbols have unknown (falsy) status. -/
def isInteger : SExpr → Bool
  | sym s => s.integer
  | num _ => true
  | add a b => a.isInteger && b.isInteger
  | mul a b => a.isInteger && b.isInteger
  | indexedRef _ _ _ => false
  | matRef _ _ => false

end SExpr

/-- An `ImmutableMatrix` expression: a shape and its scalar entries. -/
structure MatExpr where
  rows : Nat
  cols : Nat
  entries : List SExpr
deriving DecidableEq, Repr

namespace MatExpr

def freeSyms (m : MatExpr) : List Sym := m.entries.flatMap SExpr.freeSyms

def idxAtoms (m : MatExpr) : List Sym := m.entries.flatMap SExpr.idxAtoms

def indexedAtoms (m : MatExpr) : List (Sym × List Nat) :=
  m.entries.flatMap SExpr.indexedAtoms

def matAtoms (m : MatExpr) : List (Sym × List Nat) :=
  m.entries.flatMap SExpr.matAtoms

/-- `expr.is_integer` for a matrix is per-element (used by
`get_default_datatype`, which checks every element). -/
def allInteger (m : MatExpr) : Bool := m.entries.all SExpr.isInteger

end MatExpr

/-- Left-hand sides of an `Assignment`/`Equality` as the `Routine` constructor
classifies them: an `Indexed` element, a plain `Symbol`, a `MatrixSymbol`, or
anything else (which `Routine.__init__` rejects with a `ValueError`). -/
inductive Lhs
  | indexed (base : Sym) (shape : List Nat) (idxs : List Sym)
  | symbol (s : Sym)
  | matrixSymbol (s : Sym) (shape : List Nat)
  | other
deriving DecidableEq, Repr

namespace Lhs

def freeSyms : Lhs → List Sym
  | indexed base _ idxs => base :: idxs
  | symbol s => [s]
  | matrixSymbol s _ => [s]
  | other => []

def idxAtoms : Lhs → List Sym
  | indexed _ _ idxs => idxs
  | _ => []

def indexedAtoms : Lhs → List (Sym × List Nat)
  | indexed base shape _ => [(base, shape)]
  | _ => []

def matAtoms : Lhs → List (Sym × List Nat)
  | matrixSymbol s shape => [(s, shape)]
  | _ => []

end Lhs

/-- One element of the expression list handed to `Routine.__init__`:
an `Equality` (assignment), an `ImmutableMatrix`, or a plain expression. -/
inductive InExpr
  | plain (e : SExpr)
  | eq (lhs : Lhs) (rhs : SExpr)
  | mat (m : MatExpr)
deriving DecidableEq, Repr

namespace InExpr

def freeSyms : InExpr → List Sym
  | plain e => e.freeSyms
  | eq lhs rhs => lhs.freeSyms ++ rhs.freeSyms
  | mat m => m.freeSyms

def idxAtoms : InExpr → List Sym
  | plain e => e.idxAtoms
  | eq lhs rhs => lhs.idxAtoms ++ rhs.idxAtoms
  | mat m => m.idxAtoms

def indexedAtoms : InExpr → List (Sym × List Nat)
  | plain e => e.indexedAtoms
  | eq lhs rhs => lhs.indexedAtoms ++ rhs.indexedAtoms
  | mat m => m.indexedAtoms

def matAtoms : InExpr → List (Sym × List Nat)
  | plain e => e.matAtoms
  | eq lhs rhs => lhs.matAtoms ++ rhs.matAtoms
  | mat m => m.matAtoms

end InExpr

/-- `DataType` from `routines.py`: the per-language spellings of a type. -/
structure DataType where
  cname : String
  fname : String
  pyname : String
deriving DecidableEq, Repr

/-- `default_datatypes["int"]`. -/
def intDT : DataType := ⟨"int", "INTEGER*4", "int"⟩

/-- `default_datatypes["float"]`. -/
def floatDT : DataType := ⟨"double", "REAL*8", "float"⟩

/-- `get_default_datatype` applied to a symbol (`expr.is_integer` drives it). -/
def defaultDTofSym (s : Sym) : DataType := if s.integer then intDT else floatDT

/-- `get_default_datatype` applied to a scalar expression. -/
def defaultDTofExpr (e : SExpr) : DataType := if e.isInteger then intDT else floatDT

/-- `get_default_datatype` applied to a matrix: integer only when every
element is integer. -/
def defaultDTofMat (m : MatExpr) : DataType := if m.allInteger then intDT else floatDT

/-- The expression carried by an `OutputArgument`: the right-hand side of the
assignment that produced it, which is a scalar expression for an `Equality`
and a matrix for the `ImmutableMatrix` branch of `Routine.__init__`. -/
inductive OExpr
  | scalar (e : SExpr)
  | matrix (m : MatExpr)
deriving DecidableEq, Repr

/-- The three `Argument` refinements of `routines.py`.  `InputArgument` is a
plain typed variable; `OutputArgument` and `InOutArgument` additionally carry
the result variable (the original assignment target) and the defining
expression, exactly as `ResultBase` stores them.  Datatypes are the values
`Variable.__init__`/`InOutArgument.__init__` compute when no explicit
datatype is supplied (the only way the `Routine` constructor builds them). -/
inductive Argument
  | InputArgument (name : Sym) (datatype : DataType) (dimensions : List (Nat × Nat))
  | OutputArgument (name : Sym) (datatype : DataType) (dimensions : List (Nat × Nat))
      (result_var : Lhs) (expr : OExpr)
  | InOutArgument (name : Sym) (datatype : DataType) (dimensions : List (Nat × Nat))
      (result_var : Lhs) (expr : SExpr)
deriving DecidableEq, Repr

namespace Argument

def nameOf : Argument → Sym
  | InputArgument s _ _ => s
  | OutputArgument s _ _ _ _ => s
  | InOutArgument s _ _ _ _ => s

def datatypeOf : Argument → DataType
  | InputArgument _ dt _ => dt
  | OutputArgument _ dt _ _ _ => dt
  | InOutArgument _ dt _ _ _ => dt

def dimensionsOf : Argument → List (Nat × Nat)
  | InputArgument _ _ d => d
  | OutputArgument _ _ d _ _ => d
  | InOutArgument _ _ d _ _ => d

/-- `isinstance(arg, InputArgument)`. -/
def isInput : Argument → Bool
  | InputArgument _ _ _ => true
  | _ => false

/-- `isinstance(arg, OutputArgument)`. -/
def isOutput : Argument → Bool
  | OutputArgument _ _ _ _ _ => true
  | _ => false

/-- `isinstance(arg, InOutArgument)`. -/
def isInOut : Argument → Bool
  | InOutArgument _ _ _ _ _ => true
  | _ => false

/-- `isinstance(arg, ResultBase)`: output and in-out arguments only. -/
def isResultBase : Argument → Bool
  | InputArgument _ _ _ => false
  | _ => true

end Argument

/-- A deterministic stand-in for Python's `abs(hash(...))` on strings; only
used to synthesize unique temporary names, never compared across runs. -/
def hashStr (s : String) : Nat :=
  s.data.foldl (fun h c => (h * 31 + c.toNat) % 1000000007) 5381

/-- Deterministic stand-in for `abs(hash(expr))` on scalar expressions. -/
def hashE : SExpr → Nat
  | SExpr.sym s => (hashStr s.name * 2 + 1) % 1000000007
  | SExpr.num n => (n.natAbs * 2) % 1000000007
  | SExpr.add a b => (hashE a * 37 + hashE b * 5 + 3) % 1000000007
  | SExpr.mul a b => (hashE a * 41 + hashE b * 7 + 4) % 1000000007
  | SExpr.indexedRef base shape idxs =>
      ((hashStr base.name * 43 + shape.foldl (fun h d => h * 13 + d) 2 +
        idxs.foldl (fun h s => h * 17 + hashStr s.name) 6) + 5) % 1000000007
  | SExpr.matRef s shape =>
      (hashStr s.name * 47 + shape.foldl (fun h d => h * 19 + d) 8) % 1000000007

/-- Deterministic stand-in for `abs(hash(expr))` on matrix expressions. -/
def hashMat (m : MatExpr) : Nat :=
  (m.entries.foldl (fun h e => (h * 53 + hashE e) % 1000000007)
    (m.rows * 29 + m.cols * 31 + 9)) % 1000000007

/-- `Result` from `routines.py`: an unnamed scalar return value.  The result
variable is the synthesized `Symbol('result_%s' % abs(hash(expr)))`, and the
datatype (never passed explicitly by the `Routine` constructor) is the default
datatype of that synthesized symbol, which is always the float datatype. -/
structure Result where
  expr : SExpr
  result_var : String
  datatype : DataType
deriving DecidableEq, Repr

/-- `Result.__init__` with the default (`None`) datatype. -/
def mkResult (e : SExpr) : Result :=
  { expr := e
    result_var := "result_" ++ Nat.repr (hashE e)
    datatype := defaultDTofSym ⟨"result_" ++ Nat.repr (hashE e), false⟩ }

/-- The `Routine` IR: name, ordered arguments, ordered results, local (loop)
variables.  `local_vars` keeps the collection order of the source's set. -/
structure Routine where
  name : String
  arguments : List Argument
  results : List Result
  local_vars : List Sym
deriving DecidableEq, Repr

/-- `Routine.variables` rendered through `str` (the only way the generators
use it): local variables, argument names and result variables. -/
def Routine.varNames (r : Routine) : List String :=
  r.local_vars.map Sym.name ++ r.arguments.map (fun a => a.nameOf.name) ++
    r.results.map Result.result_var

/-- `Routine.result_variables`: OutputArgument and InOutArgument entries of
the argument list, followed by the results. -/
inductive RVar
  | arg (a : Argument)
  | res (r : Result)
deriving DecidableEq, Repr

def Routine.resultVariables (r : Routine) : List RVar :=
  (r.arguments.filter Argument.isResultBase).map RVar.arg ++
    r.results.map RVar.res

/-- The error values raised by the embedded sources.  Every constructor
corresponds to one `raise` site; all of them are `ValueError`-kind except
`codeWrapError` (`CodeWrapError`). -/
inductive Err
  | noExpression
  | badOutputArgLhs
  | removeKeyError (s : Sym)
  | missingArguments (names : List String)
  | cMultipleResults
  | fMultipleResults
  | fortranCaseCollision (vars : List String)
  | ufuncifyMultipleOutputs
  | ufuncifyInOut
  | codeWrapError (msg : String)
deriving DecidableEq, Repr

/-! ## Routine construction (`Routine.__init__` in `symcc/types/routines.py`) -/

/-- The `(dims, symbol)` derivation for an assignment target: an `Indexed`
element yields its base label and the `(0, dim-1)` bounds of the base's shape,
a `Symbol` yields itself with no dimensions, a `MatrixSymbol` yields itself
with the bounds of its shape, and anything else is a `ValueError`. -/
def lhsInfo : Lhs → Option (Sym × List (Nat × Nat))
  | Lhs.indexed base shape _ => some (base, shape.map (fun d => (0, d - 1)))
  | Lhs.symbol s => some (s, [])
  | Lhs.matrixSymbol s shape => some (s, shape.map (fun d => (0, d - 1)))
  | Lhs.other => none

/-- The classification loop of `Routine.__init__`: walks the expression list
deciding between return values and output arguments, removing each assigned
symbol from the candidate-input set (`symbols.remove`, a `KeyError` if the
symbol is absent, modelled as `removeKeyError`). -/
def classifyExprs : List InExpr → List Result → List Argument → List Sym →
    Except Err (List Result × List Argument × List Sym)
  | [], rv, oa, syms => Except.ok (rv, oa, syms)
  | e :: rest, rv, oa, syms =>
    match e with
    | InExpr.eq lhs rhs =>
      match lhsInfo lhs with
      | none => Except.error Err.badOutputArgLhs
      | some (s, dims) =>
        let arg :=
          if rhs.has s then
            Argument.InOutArgument s (defaultDTofExpr rhs) dims lhs rhs
          else
            Argument.OutputArgument s (defaultDTofSym s) dims lhs (OExpr.scalar rhs)
        if s ∈ syms then classifyExprs rest rv (oa ++ [arg]) (syms.erase s)
        else Except.error (Err.removeKeyError s)
    | InExpr.mat m =>
      let outS : Sym := ⟨"out_" ++ Nat.repr (hashMat m), false⟩
      let shape := [m.rows, m.cols]
      let dims := shape.map (fun d => (0, d - 1))
      classifyExprs rest rv
        (oa ++ [Argument.OutputArgument outS (defaultDTofSym outS) dims
          (Lhs.matrixSymbol outS shape) (OExpr.matrix m)]) syms
    | InExpr.plain e => classifyExprs rest (rv ++ [mkResult e]) oa syms

/-- The `array_symbols` dictionary: `Indexed` atoms keyed by base label, then
`MatrixSymbol` atoms keyed by the symbol, later entries overwriting earlier
ones as Python dict assignment does. -/
def buildArraySymbols (exprs : List InExpr) : List (Sym × List Nat) :=
  ((exprs.flatMap InExpr.indexedAtoms).dedup ++ (exprs.flatMap InExpr.matAtoms).dedup).foldl
    (fun acc p => (acc.filter (fun q => q.1 ≠ p.1)) ++ [p]) []

/-- Lookup in an association list (Python dict access). -/
def lookupShape (arr : List (Sym × List Nat)) (s : Sym) : Option (List Nat) :=
  (arr.find? (fun p => p.1 = s)).map Prod.snd

/-- One `InputArgument` of the input-argument loop: dimensions are attached
when the symbol occurs as an array elsewhere in the expression set. -/
def mkInputArgument (arr : List (Sym × List Nat)) (s : Sym) : Argument :=
  match lookupShape arr s with
  | some shape => Argument.InputArgument s (defaultDTofSym s) (shape.map (fun d => (0, d - 1)))
  | none => Argument.InputArgument s (defaultDTofSym s) []

/-- `sorted(symbols, key=str)`. -/
def sortSyms (l : List Sym) : List Sym :=
  l.insertionSort (fun a b => pyStrLe a.name b.name = true)

/-- `output_args.sort(key=lambda x: str(x.name))`. -/
def sortArgs (l : List Argument) : List Argument :=
  l.insertionSort (fun a b => pyStrLe a.nameOf.name b.nameOf.name = true)

/-- The `local_vars` set of `Routine.__init__`: labels of all `Idx` atoms. -/
def localVarsOf (exprList : List InExpr) : List Sym :=
  (exprList.flatMap InExpr.idxAtoms).dedup

/-- The candidate argument symbols: all free symbols minus the loop
variables. -/
def symbols0Of (exprList : List InExpr) : List Sym :=
  ((exprList.flatMap InExpr.freeSyms).dedup).filter
    (fun s => ¬ s ∈ localVarsOf exprList)

/-- Everything `Routine.__init__` does before the `argument_sequence`
handling: local variables, candidate symbols, classification, the sorted
input arguments followed by the sorted output arguments. -/
def routineCore (exprList : List InExpr) :
    Except Err (List Argument × List Result × List Sym) :=
  if exprList.isEmpty then Except.error Err.noExpression
  else
    match classifyExprs exprList [] [] (symbols0Of exprList) with
    | Except.error e => Except.error e
    | Except.ok (rv, outputArgs, symbols) =>
      let inputs := (sortSyms symbols).map (mkInputArgument (buildArraySymbols exprList))
      Except.ok (inputs ++ sortArgs outputArgs, rv, localVarsOf exprList)

/-- `dict([(x.name, x) for x in arg_list])` followed by a lookup: the value
bound to a name is the last argument in the list with that name. -/
def nameArgLookup (l : List Argument) (s : Sym) : Option Argument :=
  l.foldl (fun acc a => if a.nameOf = s then some a else acc) none

/-- The `argument_sequence` handling: every derived argument missing from the
sequence is an error naming all missing symbols; symbols of the sequence
without a derived argument are synthesized as plain `InputArgument`s. -/
def applyArgSeq (argList : List Argument) (seq : List Sym) :
    Except Err (List Argument) :=
  let missing := argList.filter (fun a => !(seq.contains a.nameOf))
  if missing.isEmpty then
    Except.ok (seq.map (fun s =>
      match nameArgLookup argList s with
      | some a => a
      | none => Argument.InputArgument s (defaultDTofSym s) []))
  else Except.error (Err.missingArguments (missing.map (fun a => a.nameOf.name)))

/-- `Routine.__init__`: construct the routine IR from a name, an expression
list and an optional preferred argument ordering. -/
def routineInit (name : String) (exprList : List InExpr)
    (argSeq : Option (List Sym)) : Except Err Routine :=
  match routineCore exprList with
  | Except.error e => Except.error e
  | Except.ok (argList, rv, localVars) =>
    match argSeq with
    | none => Except.ok ⟨name, argList, rv, localVars⟩
    | some seq =>
      match applyArgSeq argList seq with
      | Except.error e => Except.error e
      | Except.ok newArgs => Except.ok ⟨name, newArgs, rv, localVars⟩

/-! ## Expression printers

Modelled from the spec: the per-node expression-to-text printers
(`symcc/printers/ccode.py`, `symcc/printers/fcode.py`) are external
collaborators that are not part of the sources.  Per the spec's printer
contract they take `(expr, assign_to, dereferenced_names)` and return
`(constants, unprintable_subexprs, text)`; for the arithmetic fragment
modelled here no constants and no unprintable subexpressions arise. -/

/-- String of one repeated character. -/
def repChar (n : Nat) (c : Char) : String := ⟨List.replicate n c⟩

/-- Integer literal rendering. -/
def intRepr (n : Int) : String :=
  if n < 0 then "-" ++ Nat.repr n.natAbs else Nat.repr n.natAbs

/-- Modelled from the spec: C spelling of a symbol, dereferenced when the
symbol was passed by a reference pointer. -/
def cNameOfSym (deref : List Sym) (s : Sym) : String :=
  if s ∈ deref then "(*" ++ s.name ++ ")" else s.name

/-- Modelled from the spec: C rendering of a scalar expression with the usual
operator spellings (`x + y*z` style). -/
def renderC (deref : List Sym) : SExpr → String
  | SExpr.sym s => cNameOfSym deref s
  | SExpr.num n => intRepr n
  | SExpr.add a b => renderC deref a ++ " + " ++ renderC deref b
  | SExpr.mul a b =>
      (match a with
       | SExpr.add x y => "(" ++ renderC deref (SExpr.add x y) ++ ")"
       | other => renderC deref other) ++ "*" ++
      (match b with
       | SExpr.add x y => "(" ++ renderC deref (SExpr.add x y) ++ ")"
       | other => renderC deref other)
  | SExpr.indexedRef base _ idxs =>
      cNameOfSym deref base ++ "[" ++ joinWith "][" (idxs.map Sym.name) ++ "]"
  | SExpr.matRef s _ => cNameOfSym deref s

/-- Modelled from the spec: C rendering of an assignment target. -/
def renderLhsC (deref : List Sym) : Lhs → String
  | Lhs.symbol s => cNameOfSym deref s
  | Lhs.indexed base _ idxs =>
      cNameOfSym deref base ++ "[" ++ joinWith "][" (idxs.map Sym.name) ++ "]"
  | Lhs.matrixSymbol s _ => cNameOfSym deref s
  | Lhs.other => ""

/-- Modelled from the spec: the `ccode(expr, human=False, assign_to,
dereference)` collaborator; returns `(constants, not_c, text)`. -/
def ccodePrint (e : OExpr) (assignTo : String) (deref : List Sym) :
    List (Sym × String) × List Sym × String :=
  match e with
  | OExpr.scalar se => ([], [], assignTo ++ " = " ++ renderC deref se ++ ";")
  | OExpr.matrix m =>
      ([], [], joinWith "\n" (m.entries.enum.map (fun p =>
        assignTo ++ "[" ++ Nat.repr p.1 ++ "] = " ++ renderC deref p.2 ++ ";")))

/-- Modelled from the spec: `fcode` printing of a plain symbol
(`FCodeGen._get_symbol`). -/
def fGetSymbol (s : Sym) : String := s.name

/-- Modelled from the spec: Fortran rendering of a scalar expression. -/
def renderF : SExpr → String
  | SExpr.sym s => s.name
  | SExpr.num n => intRepr n
  | SExpr.add a b => renderF a ++ " + " ++ renderF b
  | SExpr.mul a b =>
      (match a with
       | SExpr.add x y => "(" ++ renderF (SExpr.add x y) ++ ")"
       | other => renderF other) ++ "*" ++
      (match b with
       | SExpr.add x y => "(" ++ renderF (SExpr.add x y) ++ ")"
       | other => renderF other)
  | SExpr.indexedRef base _ idxs =>
      base.name ++ "(" ++ joinWith ", " (idxs.map Sym.name) ++ ")"
  | SExpr.matRef s _ => s.name

/-- Modelled from the spec: Fortran rendering of an assignment target. -/
def renderLhsF : Lhs → String
  | Lhs.symbol s => s.name
  | Lhs.indexed base _ idxs =>
      base.name ++ "(" ++ joinWith ", " (idxs.map Sym.name) ++ ")"
  | Lhs.matrixSymbol s _ => s.name
  | Lhs.other => ""

/-- Modelled from the spec: the `fcode(expr, assign_to, source_format='free',
human=False)` collaborator; returns `(constants, not_fortran, text)`. -/
def fcodePrint (e : OExpr) (assignTo : String) :
    List (Sym × String) × List Sym × String :=
  match e with
  | OExpr.scalar se => ([], [], assignTo ++ " = " ++ renderF se)
  | OExpr.matrix m =>
      ([], [], joinWith "\n" (m.entries.enum.map (fun p =>
        assignTo ++ "(" ++ Nat.repr (p.1 + 1) ++ ") = " ++ renderF p.2)))

/-! ## The shared emission skeleton (`CodeGen` in `symcc/generators/codegen.py`) -/

/-- The modelled value of `sympy.__version__`, an external collaborator. -/
def sympyVersion : String := "0.7.6"

/-- The `header_comment` template of `codegen.py`, instantiated. -/
def headerComment (project : String) : String :=
  "Code generated with sympy " ++ sympyVersion ++
    "\n\nSee http://www.sympy.org/ for more information.\n\nThis file is part of '" ++
    project ++ "'\n"

/-- Python `str.splitlines` (no trailing empty line for a trailing newline). -/
def pySplitlines (s : String) : List String :=
  let ls := splitLines s.data
  (match ls.getLast? with
   | some [] => ls.dropLast
   | _ => ls).map (fun l => ⟨l⟩)

/-- Python `str.center` (models the padding split; extra space on the right). -/
def centerStr (w : Nat) (s : String) : String :=
  if w ≤ s.length then s
  else
    let tot := w - s.length
    let left := tot / 2
    repChar left ' ' ++ s ++ repChar (tot - left) ' '

/-- The pluggable backend hooks of the abstract `CodeGen` skeleton, one field
per hook that `dump_code` invokes. -/
structure CodeGenHooks where
  headerOf : String → List String
  preprocessor : String → List String
  routineOpening : Routine → Except Err (List String)
  declareArguments : Routine → List String
  declareLocals : Routine → List String
  callPrinter : Routine → List String
  routineEnding : Routine → List String
  indentCode : String → String

/-- `CodeGen.dump_code`: the fixed emission skeleton — preprocessor lines,
then per routine an optional blank line, opening, argument declarations,
local declarations, optional blank line, body, optional blank line, closing;
the buffer is indented by the backend and optionally prefixed with the
generated header comment. -/
def dumpCode (hooks : CodeGenHooks) (project : String) (routines : List Routine)
    (pfx : String) (header empty : Bool) : Except Err String := do
  let blank : List String := if empty then ["\n"] else []
  let body ← routines.foldlM (fun acc r => do
    let opening ← hooks.routineOpening r
    pure (acc ++ blank ++ opening ++ hooks.declareArguments r ++
      hooks.declareLocals r ++ blank ++ hooks.callPrinter r ++ blank ++
      hooks.routineEnding r)) (hooks.preprocessor pfx)
  let code := hooks.indentCode (concatStrs body)
  pure (if header then concatStrs (hooks.headerOf project) ++ code else code)

/-! ## The C backend (`CCodeGen` in `symcc/generators/ccodegen.py`) -/

def cCodeExtension : String := "c"

def cInterfaceExtension : String := "h"

/-- `CCodeGen._get_header`: the boxed comment block. -/
def cGetHeader (project : String) : List String :=
  ["/" ++ repChar 78 '*' ++ "\n"] ++
    (pySplitlines (headerComment project)).map
      (fun line => " *" ++ centerStr 76 line ++ "*\n") ++
    [" " ++ repChar 78 '*' ++ "/\n"]

/-- `CCodeGen.get_prototype`: fails for multiple results; array-like and
result-carrying arguments are pointers, the rest are by value. -/
def cGetPrototype (r : Routine) : Except Err String :=
  if 1 < r.results.length then Except.error Err.cMultipleResults
  else
    let ctype := match r.results with
      | [res] => res.datatype.cname
      | _ => "void"
    let typeArgs := r.arguments.map (fun a =>
      if ¬ a.dimensionsOf.isEmpty || a.isResultBase then
        a.datatypeOf.cname ++ " *" ++ a.nameOf.name
      else
        a.datatypeOf.cname ++ " " ++ a.nameOf.name)
    Except.ok (ctype ++ " " ++ r.name ++ "(" ++ joinWith ", " typeArgs ++ ")")

/-- `CCodeGen._preprocessor_statements`. -/
def cPreprocessorStatements (_pfx : String) : List String :=
  ["#include <math.h>\n"]

/-- `CCodeGen._get_routine_opening`. -/
def cGetRoutineOpening (r : Routine) : Except Err (List String) :=
  (cGetPrototype r).map (fun p =>
    ["static inline " ++ p ++ " " ++ String.singleton lbrace ++ "\n"])

/-- The result variable carried by an output-like argument (unreachable
placeholder for `InputArgument`, which `result_variables` never contains). -/
def argResultVarOf : Argument → Lhs
  | Argument.OutputArgument _ _ _ rv _ => rv
  | Argument.InOutArgument _ _ _ rv _ => rv
  | Argument.InputArgument _ _ _ => Lhs.other

/-- The defining expression carried by an output-like argument (unreachable
placeholder for `InputArgument`). -/
def argOExprOf : Argument → OExpr
  | Argument.OutputArgument _ _ _ _ e => e
  | Argument.InOutArgument _ _ _ _ e => OExpr.scalar e
  | Argument.InputArgument _ _ _ => OExpr.scalar (SExpr.num 0)

/-- The per-result-variable loop of `CCodeGen._call_printer`, threading the
emitted lines and the pending return variable. -/
def cPrinterLoop (rName : String) (deref : List Sym) :
    List RVar → List String → Option String → List String × Option String
  | [], lines, rv => (lines, rv)
  | RVar.res res :: rest, lines, _ =>
      let assignTo := rName ++ "_result"
      let decl := res.datatype.cname ++ " " ++ assignTo ++ ";\n"
      let text := (ccodePrint (OExpr.scalar res.expr) assignTo deref).2.2
      cPrinterLoop rName deref rest (lines ++ [decl, text ++ "\n"]) (some assignTo)
  | RVar.arg a :: rest, lines, rv =>
      let assignTo := renderLhsC deref (argResultVarOf a)
      let text := (ccodePrint (argOExprOf a) assignTo deref).2.2
      cPrinterLoop rName deref rest (lines ++ [text ++ "\n"]) rv

/-- `CCodeGen._call_printer`: dereference the scalar by-reference arguments,
print every result variable, and return the pending result if any. -/
def cCallPrinter (r : Routine) : List String :=
  let dereference := r.arguments.filterMap (fun a =>
    if a.isResultBase && a.dimensionsOf.isEmpty then some a.nameOf else none)
  let lr := cPrinterLoop r.name dereference (r.resultVariables) [] none
  match lr.2 with
  | some v => lr.1 ++ ["   return " ++ v ++ ";\n"]
  | none => lr.1

/-- Strip leading blanks and tabs from a line. -/
def lstripLine (l : List Char) : List Char :=
  l.dropWhile (fun c => c = ' ' || c = '\t')

/-- Modelled from the spec: the brace-driven re-indentation of
`CCodePrinter.indent_code` (an external printer collaborator): lines are
stripped and re-indented three spaces per open brace. -/
def indentCGo : Nat → List (List Char) → List (List Char)
  | _, [] => []
  | depth, l :: rest =>
    let t := lstripLine l
    if t.isEmpty then [] :: indentCGo depth rest
    else
      let dHere := if t.head? = some rbrace then depth - 1 else depth
      let dNext := if t.getLast? = some lbrace then dHere + 1 else dHere
      (List.replicate (3 * dHere) ' ' ++ t) :: indentCGo dNext rest

/-- Modelled from the spec: `CCodeGen._indent_code`. -/
def cIndentCode (code : String) : String :=
  ⟨joinNl (indentCGo 0 (splitLines code.data))⟩

/-- `CCodeGen._get_routine_ending`. -/
def cGetRoutineEnding (_r : Routine) : List String :=
  [String.singleton rbrace ++ "\n"]

/-- The `CCodeGen` hooks assembled for the shared skeleton. -/
def cHooks : CodeGenHooks :=
  { headerOf := cGetHeader
    preprocessor := cPreprocessorStatements
    routineOpening := cGetRoutineOpening
    declareArguments := fun _ => []
    declareLocals := fun _ => []
    callPrinter := cCallPrinter
    routineEnding := cGetRoutineEnding
    indentCode := cIndentCode }

/-- `CCodeGen.dump_c`. -/
def cDumpC (project : String) (routines : List Routine) (pfx : String)
    (header empty : Bool) : Except Err String :=
  dumpCode cHooks project routines pfx header empty

/-- The include-guard name of `CCodeGen.dump_h`:
`"%s__%s__H" % (project.replace(" ", "_").upper(), prefix.replace("/", "_").upper())`. -/
def cGuardName (project pfx : String) : String :=
  upperStr (replaceChar ' ' '_' project) ++ "__" ++
    upperStr (replaceChar '/' '_' pfx) ++ "__H"

/-- `CCodeGen.dump_h`: optional header comment, include guards derived from
the project name and the file prefix, one prototype per routine terminated by
a semicolon, and the closing `#endif`. -/
def cDumpH (project : String) (routines : List Routine) (pfx : String)
    (header empty : Bool) : Except Err String := do
  let blank : String := if empty then "\n" else ""
  let headerPart := if header then concatStrs (cGetHeader project) ++ "\n" else ""
  let protos ← routines.foldlM
    (fun acc r => (cGetPrototype r).map (fun p => acc ++ p ++ ";\n")) ""
  pure (headerPart ++ blank ++
    ("#ifndef " ++ cGuardName project pfx ++ "\n") ++
    ("#define " ++ cGuardName project pfx ++ "\n") ++
    blank ++ protos ++ blank ++ "#endif\n" ++ blank)

/-- `CodeGen.write` for the C backend with `to_files=False`: run the
registered dump functions in order and pair each with its filename. -/
def cWrite (project : String) (routines : List Routine) (pfx : String)
    (header empty : Bool) : Except Err (List (String × String)) := do
  let c ← cDumpC project routines pfx header empty
  let h ← cDumpH project routines pfx header empty
  pure [(pfx ++ "." ++ cCodeExtension, c), (pfx ++ "." ++ cInterfaceExtension, h)]

/-! ## The Fortran backend (`FCodeGen` in `symcc/generators/fcodegen.py`) -/

def fCodeExtension : String := "f90"

def fInterfaceExtension : String := "h"

/-- `FCodeGen._get_header`. -/
def fGetHeader (project : String) : List String :=
  ["!" ++ repChar 78 '*' ++ "\n"] ++
    (pySplitlines (headerComment project)).map
      (fun line => "!*" ++ centerStr 76 line ++ "*\n") ++
    ["!" ++ repChar 78 '*' ++ "\n"]

/-- `FCodeGen._get_routine_opening`: fails for multiple results, otherwise a
`function` (single result) or `subroutine` header plus `implicit none`. -/
def fGetRoutineOpening (r : Routine) : Except Err (List String) :=
  if 1 < r.results.length then Except.error Err.fMultipleResults
  else
    let codeList := match r.results with
      | [res] => [res.datatype.fname, "function"]
      | _ => ["subroutine"]
    let args := joinWith ", " (r.arguments.map (fun a => fGetSymbol a.nameOf))
    Except.ok [joinWith " " (codeList ++ [r.name ++ "(" ++ args ++ ")\n"]),
      "implicit none\n"]

/-- The `typeinfo` string of `FCodeGen._declare_arguments`: datatype plus
intent, by argument kind. -/
def fTypeinfo : Argument → String
  | Argument.InputArgument _ dt _ => dt.fname ++ ", intent(in)"
  | Argument.InOutArgument _ dt _ _ _ => dt.fname ++ ", intent(inout)"
  | Argument.OutputArgument _ dt _ _ _ => dt.fname ++ ", intent(out)"

/-- A scalar argument declaration line (`"%s :: %s\n"`). -/
def fScalarDeclLine (a : Argument) : String :=
  fTypeinfo a ++ " :: " ++ fGetSymbol a.nameOf ++ "\n"

/-- An array argument declaration line: the dimension string uses 1-based
bounds (`fortran arrays start at 1`). -/
def fArrayDeclLine (a : Argument) : String :=
  fTypeinfo a ++ ", dimension(" ++
    joinWith ", " (a.dimensionsOf.map
      (fun d => Nat.repr (d.1 + 1) ++ ":" ++ Nat.repr (d.2 + 1))) ++
    ")" ++ " :: " ++ fGetSymbol a.nameOf ++ "\n"

/-- The argument-declaration loop of `FCodeGen._declare_arguments`: scalar
declarations are collected separately from dimensioned (array) declarations,
and the scalars are emitted first. -/
def fDeclArgLoop : List Argument → List String → List String → List String
  | [], scal, arr => scal ++ arr
  | a :: rest, scal, arr =>
    if a.dimensionsOf.isEmpty then
      fDeclArgLoop rest (scal ++ [fScalarDeclLine a]) arr
    else
      fDeclArgLoop rest scal (arr ++ [fArrayDeclLine a])

/-- `FCodeGen._declare_arguments`. -/
def fDeclareArguments (r : Routine) : List String :=
  fDeclArgLoop r.arguments [] []

/-- `FCodeGen._declare_locals`. -/
def fDeclareLocals (r : Routine) : List String :=
  (sortSyms r.local_vars).map (fun v =>
    (defaultDTofSym v).fname ++ " :: " ++ fGetSymbol v ++ "\n")

/-- `FCodeGen._get_routine_ending`. -/
def fGetRoutineEnding (r : Routine) : List String :=
  if r.results.length = 1 then ["end function\n"] else ["end subroutine\n"]

/-- `FCodeGen._call_printer`: each result variable becomes one printed
assignment; a plain result is assigned to the function name. -/
def fCallPrinter (r : Routine) : List String :=
  r.resultVariables.map (fun rv =>
    match rv with
    | RVar.res res => (fcodePrint (OExpr.scalar res.expr) r.name).2.2 ++ "\n"
    | RVar.arg a => (fcodePrint (argOExprOf a) (renderLhsF (argResultVarOf a))).2.2 ++ "\n")

/-- Modelled from the spec: `FCodeGen._indent_code` delegates to the external
`FCodePrinter`; free-form source needs no re-indentation in this model. -/
def fIndentCode (code : String) : String := code

/-- The `FCodeGen` hooks assembled for the shared skeleton. -/
def fHooks : CodeGenHooks :=
  { headerOf := fGetHeader
    preprocessor := fun _ => []
    routineOpening := fGetRoutineOpening
    declareArguments := fDeclareArguments
    declareLocals := fDeclareLocals
    callPrinter := fCallPrinter
    routineEnding := fGetRoutineEnding
    indentCode := fIndentCode }

/-- The case-insensitivity check of `FCodeGen.dump_f95`: Fortran ignores
case, so two distinct variable spellings that agree after lower-casing are
rejected (`len(set(lower)) < len(set(orig))`). -/
def routineCaseCollides (r : Routine) : Bool :=
  ((r.varNames.map lowerStr).dedup).length < (r.varNames.dedup).length

/-- `FCodeGen.dump_f95`: the case check runs over every routine before any
code is emitted, then the shared skeleton produces the file body. -/
def fDumpF95 (project : String) (routines : List Routine) (pfx : String)
    (header empty : Bool) : Except Err String :=
  match routines.find? routineCaseCollides with
  | some r => Except.error (Err.fortranCaseCollision r.varNames)
  | none => dumpCode fHooks project routines pfx header empty

/-- `FCodeGen.get_interface`: an explicit interface block. -/
def fGetInterface (r : Routine) : Except Err String := do
  let opening ← fGetRoutineOpening r
  pure (concatStrs (["interface\n"] ++ opening ++ fDeclareArguments r ++
    fGetRoutineEnding r ++ ["end interface\n"]))

/-- `FCodeGen.dump_h`. -/
def fDumpH (project : String) (routines : List Routine) (pfx : String)
    (header empty : Bool) : Except Err String := do
  let blank : String := if empty then "\n" else ""
  let headerPart := if header then concatStrs (fGetHeader project) ++ "\n" else ""
  let interfaces ← routines.foldlM
    (fun acc r => (fGetInterface r).map (fun p => acc ++ p)) ""
  pure (headerPart ++ blank ++ interfaces ++ blank)

/-- `CodeGen.write` for the Fortran backend with `to_files=False`. -/
def fWrite (project : String) (routines : List Routine) (pfx : String)
    (header empty : Bool) : Except Err (List (String × String)) := do
  let f ← fDumpF95 project routines pfx header empty
  let h ← fDumpH project routines pfx header empty
  pure [(pfx ++ "." ++ fCodeExtension, f), (pfx ++ "." ++ fInterfaceExtension, h)]

/-! ## Build orchestration (`symcc/wrappers/codewrapper.py`)

The subprocess and filesystem primitives are external collaborators; the
subprocess is modelled as a function from the command vector to its exit
status and captured combined stdout/stderr, and the filesystem effects of
`wrap_code` are recorded as an ordered event trace. -/

/-- Exit status and captured combined output of the external build command. -/
structure CmdResult where
  exitCode : Nat
  output : String

/-- The `CodeWrapError` message of `CodeWrapper._process_files`:
`"Error while executing command: %s. Command output is:\n%s"`. -/
def buildErrMsg (cmd : List String) (out : String) : String :=
  "Error while executing command: " ++ joinWith " " cmd ++
    ". Command output is:\n" ++ out

/-- `CodeWrapper._process_files`: extend the backend command with the caller
flags, run it, and surface a `CodeWrapError` carrying the command line and
the captured output on non-zero exit. -/
def processFiles (command flags : List String) (run : List String → CmdResult) :
    Except Err Unit :=
  let cmd := command ++ flags
  if (run cmd).exitCode = 0 then Except.ok ()
  else Except.error (Err.codeWrapError (buildErrMsg cmd (run cmd).output))

/-- The filesystem/process effects of `CodeWrapper.wrap_code`, in order. -/
inductive FsEvent
  | mkdtemp
  | writeFiles
  | build (cmd : List String)
  | importMod
  | rmtree
deriving DecidableEq, Repr

/-- Result and effect trace of one `wrap_code` invocation. -/
structure WrapOutcome where
  result : Except Err Unit
  events : List FsEvent

/-- `CodeWrapper.wrap_code`: work in the caller-supplied directory or a fresh
temporary one, generate and prepare files, run the build, import the module;
the `finally` block removes the directory on every path when it was a fresh
temporary one (`if not self.filepath: shutil.rmtree(workdir)`). -/
def wrapCode (filepath : Option String) (run : List String → CmdResult)
    (command flags : List String) : WrapOutcome :=
  let fresh := filepath.isNone
  let pre := (if fresh then [FsEvent.mkdtemp] else []) ++ [FsEvent.writeFiles]
  let cleanup := if fresh then [FsEvent.rmtree] else []
  match processFiles command flags run with
  | Except.error e =>
      ⟨Except.error e, pre ++ [FsEvent.build (command ++ flags)] ++ cleanup⟩
  | Except.ok _ =>
      ⟨Except.ok (), pre ++ [FsEvent.build (command ++ flags), FsEvent.importMod] ++ cleanup⟩

/-! ## The ufuncify wrapper (`symcc/wrappers/ufuncify_wrapper.py`) -/

/-- `UfuncifyCodeWrapper.command`. -/
def ufuncifyCommand (pyExecutable : String) : List String :=
  [pyExecutable, "setup.py", "build_ext", "--inplace"]

/-- The grouping loop of `UfuncifyCodeWrapper._partition_args`: a second
`OutputArgument` and any `InOutArgument` are `ValueError`s; everything else
is an input, in order. -/
def partitionLoop : List Argument → List Argument → List Argument →
    Except Err (List Argument × List Argument)
  | [], pin, pout => Except.ok (pin, pout)
  | a :: rest, pin, pout =>
    if a.isOutput then
      if pout.isEmpty then partitionLoop rest pin (pout ++ [a])
      else Except.error Err.ufuncifyMultipleOutputs
    else if a.isInOut then Except.error Err.ufuncifyInOut
    else partitionLoop rest (pin ++ [a]) pout

/-- `UfuncifyCodeWrapper._partition_args`. -/
def partitionArgs (args : List Argument) :
    Except Err (List Argument × List Argument) :=
  partitionLoop args [] []

/-! ## General lemmas -/

theorem infixOf_nil (l : List Char) : infixOf [] l = true := by
  cases l <;> simp [infixOf, List.isPrefixOf]

theorem infixOf_of_isInfix {p l : List Char} (h : p <:+: l) : infixOf p l = true := by
  obtain ⟨s, t, rfl⟩ := h
  induction s with
  | nil =>
    cases hp : p with
    | nil => simpa [hp] using infixOf_nil t
    | cons c cs =>
      have h1 : p.isPrefixOf (p ++ t) = true :=
        List.isPrefixOf_iff_prefix.mpr (List.prefix_append _ _)
      subst hp
      simpa [infixOf, List.cons_append] using Or.inl h1
  | cons c s ih =>
    simpa [infixOf, List.cons_append] using Or.inr ih

theorem strContains_parts {s a p b : String}
    (h : s.data = a.data ++ p.data ++ b.data) : strContains s p = true := by
  unfold strContains
  apply infixOf_of_isInfix
  rw [h]
  exact List.infix_append _ _ _

theorem data_empty_str : ("" : String).data = [] := rfl

theorem charListLe_total (a : List Char) : ∀ b,
    charListLe a b = true ∨ charListLe b a = true := by
  induction a with
  | nil => intro b; left; simp [charListLe]
  | cons x xs ih =>
    intro b
    cases b with
    | nil => right; simp [charListLe]
    | cons y ys =>
      rcases Nat.lt_trichotomy x.toNat y.toNat with h | h | h
      · left; simp [charListLe, h]
      · rcases ih ys with h2 | h2
        · left; simp [charListLe, h, h2]
        · right; simp [charListLe, h.symm, h2]
      · right; simp [charListLe, h]

theorem charListLe_trans : ∀ (a b c : List Char), charListLe a b = true →
    charListLe b c = true → charListLe a c = true
  | [], _, _, _, _ => by simp [charListLe]
  | _ :: _, [], _, h, _ => by simp [charListLe] at h
  | _ :: _, _ :: _, [], _, h => by simp [charListLe] at h
  | a :: as, b :: bs, c :: cs, h1, h2 => by
    simp only [charListLe] at h1 h2 ⊢
    split_ifs at h1 h2 ⊢ <;>
      first
        | rfl
        | omega
        | exact charListLe_trans as bs cs h1 h2

instance : IsTotal Sym (fun a b => pyStrLe a.name b.name = true) :=
  ⟨fun a b => charListLe_total a.name.data b.name.data⟩

instance : IsTrans Sym (fun a b => pyStrLe a.name b.name = true) :=
  ⟨fun _ _ _ h1 h2 => charListLe_trans _ _ _ h1 h2⟩

instance : IsTotal Argument (fun a b => pyStrLe a.nameOf.name b.nameOf.name = true) :=
  ⟨fun a b => charListLe_total a.nameOf.name.data b.nameOf.name.data⟩

instance : IsTrans Argument (fun a b => pyStrLe a.nameOf.name b.nameOf.name = true) :=
  ⟨fun _ _ _ h1 h2 => charListLe_trans _ _ _ h1 h2⟩

theorem sortSyms_sorted (l : List Sym) :
    (sortSyms l).Sorted (fun a b => pyStrLe a.name b.name = true) :=
  List.sorted_insertionSort _ l

theorem sortArgs_sorted (l : List Argument) :
    (sortArgs l).Sorted (fun a b => pyStrLe a.nameOf.name b.nameOf.name = true) :=
  List.sorted_insertionSort _ l

theorem sortArgs_eq_of_sorted {l : List Argument}
    (h : l.Sorted (fun a b => pyStrLe a.nameOf.name b.nameOf.name = true)) :
    sortArgs l = l :=
  List.Sorted.insertionSort_eq h

theorem mem_sortSyms {a : Sym} {l : List Sym} : a ∈ sortSyms l ↔ a ∈ l :=
  (List.perm_insertionSort _ l).mem_iff

theorem mem_sortArgs {a : Argument} {l : List Argument} : a ∈ sortArgs l ↔ a ∈ l :=
  (List.perm_insertionSort _ l).mem_iff

/-! ## Routine-construction lemmas (for claims C1, C3 and C4) -/

instance {ε α : Type} [DecidableEq ε] [DecidableEq α] : DecidableEq (Except ε α) :=
  fun a b =>
    match a, b with
    | Except.error e1, Except.error e2 => decidable_of_iff (e1 = e2) (by simp)
    | Except.ok x, Except.ok y => decidable_of_iff (x = y) (by simp)
    | Except.error _, Except.ok _ => isFalse (fun hc => by cases hc)
    | Except.ok _, Except.error _ => isFalse (fun hc => by cases hc)

theorem classifyExprs_nil (rv : List Result) (oa : List Argument) (syms : List Sym) :
    classifyExprs [] rv oa syms = Except.ok (rv, oa, syms) := rfl

theorem mkInputArgument_name (arr : List (Sym × List Nat)) (t : Sym) :
    (mkInputArgument arr t).nameOf = t := by
  unfold mkInputArgument
  cases h : lookupShape arr t <;> simp [Argument.nameOf]

theorem mkInputArgument_isInput (arr : List (Sym × List Nat)) (t : Sym) :
    (mkInputArgument arr t).isInput = true := by
  unfold mkInputArgument
  cases h : lookupShape arr t <;> simp [Argument.isInput]

theorem sortArgs_singleton (a : Argument) : sortArgs [a] = [a] := rfl

theorem classifyExprs_outputs (es : List InExpr) : ∀ rv oa syms rv2 oa2 syms2,
    classifyExprs es rv oa syms = Except.ok (rv2, oa2, syms2) →
    (∀ a ∈ oa, a.isInput = false) → ∀ a ∈ oa2, a.isInput = false := by
  induction es with
  | nil =>
    intro rv oa syms rv2 oa2 syms2 h hoa
    simp [classifyExprs] at h
    obtain ⟨-, rfl, -⟩ := h
    exact hoa
  | cons e rest ih =>
    intro rv oa syms rv2 oa2 syms2 h hoa
    cases e with
    | plain e0 =>
      simp only [classifyExprs] at h
      exact ih _ _ _ _ _ _ h hoa
    | eq lhs rhs =>
      cases hinfo : lhsInfo lhs with
      | none => simp only [classifyExprs, hinfo] at h; cases h
      | some p =>
        obtain ⟨s, dims⟩ := p
        simp only [classifyExprs, hinfo] at h
        by_cases hmem : s ∈ syms
        · rw [if_pos hmem] at h
          refine ih _ _ _ _ _ _ h ?_
          intro a ha
          rcases List.mem_append.mp ha with ha | ha
          · exact hoa a ha
          · have := List.mem_singleton.mp ha
            subst this
            by_cases hh : rhs.has s <;> simp [hh, Argument.isInput]
        · rw [if_neg hmem] at h; cases h
    | mat m =>
      simp only [classifyExprs] at h
      refine ih _ _ _ _ _ _ h ?_
      intro a ha
      rcases List.mem_append.mp ha with ha | ha
      · exact hoa a ha
      · have := List.mem_singleton.mp ha
        subst this
        simp [Argument.isInput]

theorem routineInit_none_core {nm : String} {es : List InExpr} {r : Routine}
    (hr : routineInit nm es none = Except.ok r) :
    routineCore es = Except.ok (r.arguments, r.results, r.local_vars) := by
  unfold routineInit at hr
  cases hcore : routineCore es with
  | error e => rw [hcore] at hr; cases hr
  | ok t =>
    obtain ⟨args, rv, lv⟩ := t
    rw [hcore] at hr
    cases hr
    rfl

theorem routineCore_ok_elim {es : List InExpr} {args : List Argument}
    {rv : List Result} {lv : List Sym}
    (h : routineCore es = Except.ok (args, rv, lv)) :
    ∃ oa syms, classifyExprs es [] [] (symbols0Of es) = Except.ok (rv, oa, syms) ∧
      args = (sortSyms syms).map (mkInputArgument (buildArraySymbols es)) ++ sortArgs oa ∧
      lv = localVarsOf es := by
  unfold routineCore at h
  by_cases he : es.isEmpty
  · rw [if_pos he] at h; cases h
  · rw [if_neg he] at h
    cases hcl : classifyExprs es [] [] (symbols0Of es) with
    | error e => rw [hcl] at h; cases h
    | ok t =>
      obtain ⟨rv2, oa, syms⟩ := t
      rw [hcl] at h
      simp at h
      obtain ⟨h1, h2, h3⟩ := h
      exact ⟨oa, syms, by rw [h2], h1.symm, h3.symm⟩

theorem symbols0_nodup (es : List InExpr) : (symbols0Of es).Nodup :=
  List.Nodup.filter _ (List.nodup_dedup _)

/-! ## Claim C3: derived argument ordering -/

/-- C3: for every routine constructed without an explicit argument ordering,
the argument list is exactly the `InputArgument`s sorted by name followed by
the `Output`/`InOut` arguments sorted by name. -/
theorem c3_argument_ordering (nm : String) (es : List InExpr) (r : Routine)
    (hr : routineInit nm es none = Except.ok r) :
    r.arguments = sortArgs (r.arguments.filter Argument.isInput) ++
      sortArgs (r.arguments.filter (fun a => !a.isInput)) := by
  have hcore := routineInit_none_core hr
  obtain ⟨oa, syms, hcl, hargs, -⟩ := routineCore_ok_elim hcore
  have hinp : ∀ a ∈ (sortSyms syms).map (mkInputArgument (buildArraySymbols es)),
      a.isInput = true := by
    intro a ha
    obtain ⟨t, -, rfl⟩ := List.mem_map.mp ha
    exact mkInputArgument_isInput _ t
  have hout : ∀ a ∈ sortArgs oa, a.isInput = false := by
    intro a ha
    exact classifyExprs_outputs es [] [] _ _ _ _ hcl (by simp) a (mem_sortArgs.mp ha)
  have hsorted : ((sortSyms syms).map (mkInputArgument (buildArraySymbols es))).Sorted
      (fun a b => pyStrLe a.nameOf.name b.nameOf.name = true) := by
    refine List.Pairwise.map _ ?_ (sortSyms_sorted syms)
    intro a b hab
    rw [mkInputArgument_name, mkInputArgument_name]
    exact hab
  have h1 : ((sortSyms syms).map (mkInputArgument (buildArraySymbols es))).filter
      Argument.isInput = (sortSyms syms).map (mkInputArgument (buildArraySymbols es)) :=
    List.filter_eq_self.mpr hinp
  have h2 : (sortArgs oa).filter Argument.isInput = [] := by
    rw [List.filter_eq_nil]
    intro a ha
    simp [hout a ha]
  have h3 : ((sortSyms syms).map (mkInputArgument (buildArraySymbols es))).filter
      (fun a => !a.isInput) = [] := by
    rw [List.filter_eq_nil]
    intro a ha
    simp [hinp a ha]
  have h4 : (sortArgs oa).filter (fun a => !a.isInput) = sortArgs oa := by
    refine List.filter_eq_self.mpr ?_
    intro a ha
    simp [hout a ha]
  rw [hargs, List.filter_append, List.filter_append, h1, h2, h3, h4,
    List.append_nil, List.nil_append, sortArgs_eq_of_sorted hsorted,
    sortArgs_eq_of_sorted (sortArgs_sorted oa)]

def c3w : Sym := ⟨"w", false⟩

def c3x : Sym := ⟨"x", false⟩

def c3y : Sym := ⟨"y", false⟩

def c3z : Sym := ⟨"z", false⟩

def c3es : List InExpr :=
  [InExpr.eq (Lhs.symbol c3w) (SExpr.add (SExpr.sym c3x) (SExpr.sym c3z)),
   InExpr.plain (SExpr.sym c3y)]

def c3R : Routine := (routineInit "h" c3es none).toOption.getD ⟨"h", [], [], []⟩

theorem c3_argument_ordering_witness :
    routineInit "h" c3es none = Except.ok c3R ∧
    c3R.arguments = sortArgs (c3R.arguments.filter Argument.isInput) ++
      sortArgs (c3R.arguments.filter (fun a => !a.isInput)) :=
  ⟨by decide, c3_argument_ordering "h" c3es c3R (by decide)⟩

/-! ## Claim C1: classification of assignment targets -/

/-- C1: a routine built from an assignment `lhs := rhs` whose target is a
plain symbol, an indexed element or a matrix symbol (the three shapes
`lhsInfo` accepts) carries, for the assigned symbol, an `InOutArgument` when
the symbol occurs in the right-hand side and an `OutputArgument` otherwise —
with the datatype and dimensions the source derives — and in both cases no
`InputArgument` for that symbol exists (it was removed from the candidate
input set). -/
theorem c1_assignment_classification (nm : String) (lhs : Lhs) (rhs : SExpr)
    (s : Sym) (dims : List (Nat × Nat)) (r : Routine)
    (hl : lhsInfo lhs = some (s, dims))
    (hr : routineInit nm [InExpr.eq lhs rhs] none = Except.ok r) :
    (rhs.has s = true →
      Argument.InOutArgument s (defaultDTofExpr rhs) dims lhs rhs ∈ r.arguments) ∧
    (rhs.has s = false →
      Argument.OutputArgument s (defaultDTofSym s) dims lhs (OExpr.scalar rhs) ∈
        r.arguments) ∧
    (∀ dt dims2, Argument.InputArgument s dt dims2 ∉ r.arguments) := by
  have hcore := routineInit_none_core hr
  obtain ⟨oa, syms, hcl, hargs, -⟩ := routineCore_ok_elim hcore
  simp only [classifyExprs, hl] at hcl
  by_cases hmem : s ∈ symbols0Of [InExpr.eq lhs rhs]
  · rw [if_pos hmem] at hcl
    obtain ⟨h1, rfl, rfl⟩ := by simpa using hcl
    refine ⟨?_, ?_, ?_⟩
    · intro hh
      rw [hargs, sortArgs_singleton]
      apply List.mem_append_right
      simp [hh]
    · intro hh
      rw [hargs, sortArgs_singleton]
      apply List.mem_append_right
      simp [hh]
    · intro dt dims2 hmemIn
      rw [hargs, sortArgs_singleton] at hmemIn
      rcases List.mem_append.mp hmemIn with hin | hin
      · obtain ⟨t, ht, heq⟩ := List.mem_map.mp hin
        have hts : t = s := by
          have := congrArg Argument.nameOf heq
          rwa [mkInputArgument_name] at this
        subst hts
        have hin2 : t ∈ (symbols0Of [InExpr.eq lhs rhs]).erase t := mem_sortSyms.mp ht
        exact ((List.Nodup.mem_erase_iff (symbols0_nodup _)).mp hin2).1 rfl
      · have heq := List.mem_singleton.mp hin
        by_cases hh : rhs.has s <;> simp [hh] at heq
  · rw [if_neg hmem] at hcl
    cases hcl

def c1x : Sym := ⟨"x", false⟩

def c1y : Sym := ⟨"y", false⟩

def c1rhs : SExpr := SExpr.add (SExpr.sym c1x) (SExpr.sym c1y)

def c1R : Routine :=
  (routineInit "f" [InExpr.eq (Lhs.symbol c1x) c1rhs] none).toOption.getD ⟨"f", [], [], []⟩

theorem c1_assignment_classification_witness :
    routineInit "f" [InExpr.eq (Lhs.symbol c1x) c1rhs] none = Except.ok c1R ∧
    Argument.InOutArgument c1x (defaultDTofExpr c1rhs) [] (Lhs.symbol c1x) c1rhs ∈
      c1R.arguments :=
  ⟨by decide,
   (c1_assignment_classification "f" (Lhs.symbol c1x) c1rhs c1x [] c1R rfl
     (by decide)).1 (by decide)⟩

/-! ## Claim C4: explicit argument orderings -/

theorem routineInit_some_eq {nm : String} {es : List InExpr} {r : Routine}
    (hr : routineInit nm es none = Except.ok r) (seq : List Sym) :
    routineInit nm es (some seq) =
      match applyArgSeq r.arguments seq with
      | Except.error e => Except.error e
      | Except.ok newArgs => Except.ok ⟨nm, newArgs, r.results, r.local_vars⟩ := by
  have hcore := routineInit_none_core hr
  unfold routineInit
  rw [hcore]

/-- C4: with an explicit argument ordering, a derived argument whose symbol
is missing from the ordering makes construction fail with the
missing-argument error naming all missing symbols; when nothing is missing,
construction succeeds with exactly the requested sequence, and every symbol
of the sequence without a derived argument is synthesized as a plain
dimension-free `InputArgument`. -/
theorem c4_explicit_argument_sequence (nm : String) (es : List InExpr)
    (seq : List Sym) (r : Routine) (hr : routineInit nm es none = Except.ok r) :
    (r.arguments.filter (fun a => !(seq.contains a.nameOf)) ≠ [] →
      routineInit nm es (some seq) =
        Except.error (Err.missingArguments
          ((r.arguments.filter (fun a => !(seq.contains a.nameOf))).map
            (fun a => a.nameOf.name)))) ∧
    (r.arguments.filter (fun a => !(seq.contains a.nameOf)) = [] →
      routineInit nm es (some seq) =
        Except.ok ⟨nm, seq.map (fun s =>
          match nameArgLookup r.arguments s with
          | some a => a
          | none => Argument.InputArgument s (defaultDTofSym s) []),
          r.results, r.local_vars⟩) ∧
    (r.arguments.filter (fun a => !(seq.contains a.nameOf)) = [] →
      ∀ s ∈ seq, nameArgLookup r.arguments s = none →
        ∃ r2, routineInit nm es (some seq) = Except.ok r2 ∧
          Argument.InputArgument s (defaultDTofSym s) [] ∈ r2.arguments) := by
  rw [routineInit_some_eq hr seq]
  simp only [applyArgSeq]
  refine ⟨?_, ?_, ?_⟩
  · intro hne
    have hcond : ¬ ((r.arguments.filter (fun a => !(seq.contains a.nameOf))).isEmpty = true) := by
      rw [List.isEmpty_iff]
      exact hne
    rw [if_neg hcond]
  · intro he
    have hcond : (r.arguments.filter (fun a => !(seq.contains a.nameOf))).isEmpty = true := by
      rw [List.isEmpty_iff]
      exact he
    rw [if_pos hcond]
  · intro he s hs hlook
    have hcond : (r.arguments.filter (fun a => !(seq.contains a.nameOf))).isEmpty = true := by
      rw [List.isEmpty_iff]
      exact he
    rw [if_pos hcond]
    refine ⟨_, rfl, ?_⟩
    have hfs : (fun t => match nameArgLookup r.arguments t with
        | some a => a
        | none => Argument.InputArgument t (defaultDTofSym t) []) s =
        Argument.InputArgument s (defaultDTofSym s) [] := by
      simp only [hlook]
    rw [← hfs]
    exact List.mem_map_of_mem _ hs

def c4a : Sym := ⟨"a", false⟩

def c4b : Sym := ⟨"b", false⟩

def c4c : Sym := ⟨"c", false⟩

def c4es : List InExpr :=
  [InExpr.plain (SExpr.add (SExpr.add (SExpr.sym c4a) (SExpr.sym c4b)) (SExpr.sym c4c))]

def c4R : Routine := (routineInit "f" c4es none).toOption.getD ⟨"f", [], [], []⟩

theorem c4_explicit_argument_sequence_witness :
    routineInit "f" c4es none = Except.ok c4R ∧
    routineInit "f" c4es (some [c4a, c4b]) =
      Except.error (Err.missingArguments ["c"]) := by
  refine ⟨by decide, ?_⟩
  have h := (c4_explicit_argument_sequence "f" c4es [c4a, c4b] c4R (by decide)).1 (by decide)
  rw [h]
  rfl

/-! ## Claim C2: the end-to-end C scenario for `x + y*z` -/

def c2x : Sym := ⟨"x", false⟩

def c2y : Sym := ⟨"y", false⟩

def c2z : Sym := ⟨"z", false⟩

/-- The expression `x + y*z` over real-valued symbols. -/
def c2Expr : SExpr :=
  SExpr.add (SExpr.sym c2x) (SExpr.mul (SExpr.sym c2y) (SExpr.sym c2z))

/-- Construct the routine `f` for `x + y*z` and emit it through the C backend
with file prefix `"test"`, no header comment and no blank lines. -/
def c2Files : Except Err (List (String × String)) :=
  match routineInit "f" [InExpr.plain c2Expr] none with
  | Except.error e => Except.error e
  | Except.ok r => cWrite "project" [r] "test" false false

/-- Does the `i`-th emitted file of an emission result have the given name
and contain the given text? -/
def emittedFileHas (res : Except Err (List (String × String)))
    (i : Nat) (fname pat : String) : Bool :=
  match res with
  | Except.ok fs =>
    match fs.get? i with
    | some f => f.1 == fname && strContains f.2 pat
    | none => false
  | Except.error _ => false

/-- C2: for `x + y*z` over real-valued symbols, emitted by the C backend with
file prefix `"test"`, no header and no blank lines, the implementation file
`test.c` declares `double f(double x, double y, double z)` and its body
computes `f_result = x + y*z;` and returns it; the interface file `test.h`
carries the include guard derived from `(project, prefix)` —
`PROJECT__TEST__H` — and the same prototype terminated with a semicolon. -/
theorem c2_end_to_end_c_scenario :
    emittedFileHas c2Files 0 "test.c" "double f(double x, double y, double z)" = true ∧
    emittedFileHas c2Files 0 "test.c" "f_result = x + y*z;" = true ∧
    emittedFileHas c2Files 0 "test.c" "return f_result;" = true ∧
    emittedFileHas c2Files 1 "test.h" "#ifndef PROJECT__TEST__H" = true ∧
    emittedFileHas c2Files 1 "test.h" "#define PROJECT__TEST__H" = true ∧
    emittedFileHas c2Files 1 "test.h" "double f(double x, double y, double z);" = true := by
  refine ⟨?_, ?_, ?_, ?_, ?_, ?_⟩ <;> decide

/-! ## Claim C8: the include-guard derivation of `CCodeGen.dump_h`

The claim says every space and path separator in the project name and in the
file prefix is normalized to an underscore.  The source normalizes only
spaces in the project name and only slashes in the prefix, so a prefix
containing a space refutes the claim as stated; the amended claim records
the exact derivation and proves it reaches the emitted interface file. -/

/-- The guard derivation as the claim words it: path separators and spaces
become underscores in both components, upper-cased.  (This definition follows
the specification's words, for comparison against `cGuardName`, which follows
the source.) -/
def claimedGuardName (project pfx : String) : String :=
  upperStr (replaceChar ' ' '_' (replaceChar '/' '_' project)) ++ "__" ++
    upperStr (replaceChar ' ' '_' (replaceChar '/' '_' pfx)) ++ "__H"

/-- Does the interface file emitted for no routines, with the given project
and prefix and no header/blank lines, contain the given text? -/
def dumpHContains (project pfx pat : String) : Bool :=
  match cDumpH project [] pfx false false with
  | Except.ok s => strContains s pat
  | Except.error _ => false

/-- C8 counterexample: with project `"project"` and file prefix `"a b"`, the
emitted include guard is `PROJECT__A B__H` — the space of the prefix is NOT
normalized to an underscore as the claim states (that would give
`PROJECT__A_B__H`, which the emitted file does not contain). -/
theorem c8_counterexample_space_in_prefix :
    cGuardName "project" "a b" = "PROJECT__A B__H" ∧
    claimedGuardName "project" "a b" = "PROJECT__A_B__H" ∧
    cGuardName "project" "a b" ≠ claimedGuardName "project" "a b" ∧
    dumpHContains "project" "a b" "#ifndef PROJECT__A B__H" = true ∧
    dumpHContains "project" "a b" "#ifndef PROJECT__A_B__H" = false := by
  refine ⟨?_, ?_, ?_, ?_, ?_⟩ <;> decide

/-- C8 (amended): the include-guard name is deterministically derived from
the project name and the file prefix as
`upper(project with spaces replaced by underscores) ++ "__" ++
upper(prefix with path separators replaced by underscores) ++ "__H"`, and the
emitted interface file contains the `#ifndef`/`#define` lines built from it. -/
theorem c8_amended_guard_derivation (project pfx : String) :
    ∃ s, cDumpH project [] pfx false false = Except.ok s ∧
      strContains s ("#ifndef " ++ cGuardName project pfx) = true ∧
      strContains s ("#define " ++ cGuardName project pfx) = true ∧
      cGuardName project pfx =
        upperStr (replaceChar ' ' '_' project) ++ "__" ++
          upperStr (replaceChar '/' '_' pfx) ++ "__H" := by
  refine ⟨_, rfl, ?_, ?_, rfl⟩
  · exact @strContains_parts _ ""
      ("#ifndef " ++ cGuardName project pfx)
      ("\n" ++ ("#define " ++ cGuardName project pfx ++ "\n") ++ "#endif\n")
      (by simp [String.data_append, List.append_assoc, data_empty_str])
  · exact @strContains_parts _
      ("#ifndef " ++ cGuardName project pfx ++ "\n")
      ("#define " ++ cGuardName project pfx)
      ("\n" ++ "#endif\n")
      (by simp [String.data_append, List.append_assoc, data_empty_str])

/-! ## Claim C5: single-return-value backends reject multiple results -/

theorem except_error_bind {α β : Type} (e : Err) (f : α → Except Err β) :
    (Except.error e : Except Err α) >>= f = Except.error e := rfl

theorem except_map_error {α β : Type} (e : Err) (f : α → β) :
    (f <$> (Except.error e : Except Err α)) = Except.error e := rfl

theorem dumpCode_error_of_opening {hooks : CodeGenHooks} {project pfx : String}
    {hdr emp : Bool} {r : Routine} {rs : List Routine} {e : Err}
    (h : hooks.routineOpening r = Except.error e) :
    dumpCode hooks project (r :: rs) pfx hdr emp = Except.error e := by
  unfold dumpCode
  simp [List.foldlM, h, except_map_error, except_error_bind]

/-- C5: a routine with more than one `Result` is rejected with a
`ValueError`-kind error by both single-return-value backends: the C
generator's prototype construction and full emission fail with the C
multiple-results error, and the Fortran generator's routine opening and full
emission also fail. -/
theorem c5_single_return_backends (project pfx : String) (hdr emp : Bool)
    (r : Routine) (h : 1 < r.results.length) :
    cGetPrototype r = Except.error Err.cMultipleResults ∧
    fGetRoutineOpening r = Except.error Err.fMultipleResults ∧
    cWrite project [r] pfx hdr emp = Except.error Err.cMultipleResults ∧
    ∃ e, fWrite project [r] pfx hdr emp = Except.error e := by
  have hc : cGetPrototype r = Except.error Err.cMultipleResults := by
    unfold cGetPrototype
    rw [if_pos h]
  have hf : fGetRoutineOpening r = Except.error Err.fMultipleResults := by
    unfold fGetRoutineOpening
    rw [if_pos h]
  have hco : cGetRoutineOpening r = Except.error Err.cMultipleResults := by
    unfold cGetRoutineOpening
    rw [hc]
    rfl
  refine ⟨hc, hf, ?_, ?_⟩
  · have hdc : cDumpC project [r] pfx hdr emp = Except.error Err.cMultipleResults := by
      unfold cDumpC
      exact @dumpCode_error_of_opening cHooks project pfx hdr emp r [] _ hco
    unfold cWrite
    simp [hdc, except_error_bind]
  · cases hcol : routineCaseCollides r with
    | true =>
      refine ⟨Err.fortranCaseCollision r.varNames, ?_⟩
      have hdf : fDumpF95 project [r] pfx hdr emp =
          Except.error (Err.fortranCaseCollision r.varNames) := by
        unfold fDumpF95
        simp [List.find?, hcol]
      unfold fWrite
      simp [hdf, except_error_bind]
    | false =>
      refine ⟨Err.fMultipleResults, ?_⟩
      have hdf : fDumpF95 project [r] pfx hdr emp = Except.error Err.fMultipleResults := by
        unfold fDumpF95
        simp only [List.find?, hcol]
        exact @dumpCode_error_of_opening fHooks project pfx hdr emp r [] _ hf
      unfold fWrite
      simp [hdf, except_error_bind]

def c5R : Routine :=
  (routineInit "g" [InExpr.plain (SExpr.sym c2x), InExpr.plain (SExpr.sym c2y)] none).toOption.getD
    ⟨"g", [], [], []⟩

theorem c5_single_return_backends_witness :
    1 < c5R.results.length ∧
    cWrite "project" [c5R] "test" true true = Except.error Err.cMultipleResults :=
  ⟨by decide, (c5_single_return_backends "project" "test" true true c5R (by decide)).2.2.1⟩

/-! ## Claim C6: build failures surface the command and output, and the
temporary working directory is removed -/

/-- C6: when the external build command exits with non-zero status, the
wrapper fails with a `CodeWrapError` whose message contains the exact command
tokens (joined by blanks) and the captured combined output; and because the
working directory was a freshly created temporary one (`filepath = none`),
the `finally` path removes it. -/
theorem c6_build_failure (command flags : List String)
    (run : List String → CmdResult)
    (h : (run (command ++ flags)).exitCode ≠ 0) :
    (wrapCode none run command flags).result =
      Except.error (Err.codeWrapError
        (buildErrMsg (command ++ flags) (run (command ++ flags)).output)) ∧
    strContains (buildErrMsg (command ++ flags) (run (command ++ flags)).output)
      (joinWith " " (command ++ flags)) = true ∧
    strContains (buildErrMsg (command ++ flags) (run (command ++ flags)).output)
      ((run (command ++ flags)).output) = true ∧
    FsEvent.rmtree ∈ (wrapCode none run command flags).events := by
  have hp : processFiles command flags run =
      Except.error (Err.codeWrapError
        (buildErrMsg (command ++ flags) (run (command ++ flags)).output)) := by
    unfold processFiles
    rw [if_neg h]
  refine ⟨?_, ?_, ?_, ?_⟩
  · unfold wrapCode
    rw [hp]
  · exact @strContains_parts _ "Error while executing command: "
      (joinWith " " (command ++ flags))
      (". Command output is:\n" ++ (run (command ++ flags)).output)
      (by simp [buildErrMsg, String.data_append, List.append_assoc])
  · exact @strContains_parts _
      ("Error while executing command: " ++ joinWith " " (command ++ flags) ++
        ". Command output is:\n")
      ((run (command ++ flags)).output) ""
      (by simp [buildErrMsg, String.data_append, List.append_assoc, data_empty_str])
  · unfold wrapCode
    rw [hp]
    simp

def c6Run : List String → CmdResult := fun _ => ⟨1, "collect2: error: ld returned 1"⟩

theorem c6_build_failure_witness :
    ((c6Run (["cc", "wrapped_code_0.c"] ++ ["-lm"])).exitCode ≠ 0) ∧
    strContains (buildErrMsg (["cc", "wrapped_code_0.c"] ++ ["-lm"])
      (c6Run (["cc", "wrapped_code_0.c"] ++ ["-lm"])).output) "cc wrapped_code_0.c -lm" = true ∧
    FsEvent.rmtree ∈ (wrapCode none c6Run ["cc", "wrapped_code_0.c"] ["-lm"]).events :=
  ⟨by decide,
   (c6_build_failure ["cc", "wrapped_code_0.c"] ["-lm"] c6Run (by decide)).2.1,
   (c6_build_failure ["cc", "wrapped_code_0.c"] ["-lm"] c6Run (by decide)).2.2.2⟩

/-! ## Claim C7: the case-insensitive backend rejects case-colliding names -/

theorem list_toFinset_map (l : List String) (f : String → String) :
    (l.map f).toFinset = l.toFinset.image f := by
  ext x
  simp

theorem routineCaseCollides_of_collision {r : Routine} {a b : String}
    (ha : a ∈ r.varNames) (hb : b ∈ r.varNames) (hne : a ≠ b)
    (hlow : lowerStr a = lowerStr b) : routineCaseCollides r = true := by
  unfold routineCaseCollides
  rw [decide_eq_true_iff]
  have h1 : ((r.varNames.map lowerStr).toFinset).card < (r.varNames.toFinset).card := by
    rw [list_toFinset_map]
    rcases lt_or_eq_of_le (Finset.card_image_le (f := lowerStr) (s := r.varNames.toFinset)) with
      hlt | heq
    · exact hlt
    · exfalso
      exact hne (Finset.injOn_of_card_image_eq heq
        (List.mem_toFinset.mpr ha) (List.mem_toFinset.mpr hb) hlow)
  rw [List.card_toFinset, List.card_toFinset] at h1
  exact h1

/-- C7: a routine whose declared variables contain two distinct names that
agree ignoring case makes the Fortran backend's emission fail with the
`ValueError`-kind case-collision error; the failure is the value of the whole
`write`, so no file content is produced. -/
theorem c7_fortran_case_collision (project pfx : String) (hdr emp : Bool)
    (r : Routine) (a b : String) (ha : a ∈ r.varNames) (hb : b ∈ r.varNames)
    (hne : a ≠ b) (hlow : lowerStr a = lowerStr b) :
    fWrite project [r] pfx hdr emp =
      Except.error (Err.fortranCaseCollision r.varNames) := by
  have hcol := routineCaseCollides_of_collision ha hb hne hlow
  have hdf : fDumpF95 project [r] pfx hdr emp =
      Except.error (Err.fortranCaseCollision r.varNames) := by
    unfold fDumpF95
    simp [List.find?, hcol]
  unfold fWrite
  simp [hdf, except_error_bind]

def c7X : Sym := ⟨"X", false⟩

def c7xlow : Sym := ⟨"x", false⟩

def c7R : Routine :=
  (routineInit "f" [InExpr.plain (SExpr.add (SExpr.sym c7X) (SExpr.sym c7xlow))] none).toOption.getD
    ⟨"f", [], [], []⟩

theorem c7_fortran_case_collision_witness :
    ("X" ∈ c7R.varNames ∧ "x" ∈ c7R.varNames ∧ lowerStr "X" = lowerStr "x") ∧
    fWrite "project" [c7R] "test" true true =
      Except.error (Err.fortranCaseCollision c7R.varNames) :=
  ⟨⟨by decide, by decide, by decide⟩,
   c7_fortran_case_collision "project" "test" true true c7R "X" "x"
     (by decide) (by decide) (by decide) (by decide)⟩

/-! ## Claim C9: Fortran scalar declarations precede array declarations -/

theorem fDeclArgLoop_eq (args : List Argument) : ∀ scal arr,
    fDeclArgLoop args scal arr =
      (scal ++ (args.filter (fun a => a.dimensionsOf.isEmpty)).map fScalarDeclLine) ++
      (arr ++ (args.filter (fun a => !a.dimensionsOf.isEmpty)).map fArrayDeclLine) := by
  induction args with
  | nil => intro scal arr; simp [fDeclArgLoop]
  | cons a rest ih =>
    intro scal arr
    by_cases h : a.dimensionsOf.isEmpty
    · rw [fDeclArgLoop, if_pos h, ih]
      simp [List.filter_cons, h, List.append_assoc]
    · rw [fDeclArgLoop, if_neg h, ih]
      simp [List.filter_cons, h, List.append_assoc]

/-- C9: for every routine emitted by the Fortran generator, the argument
declaration block is exactly the scalar declarations of the scalar arguments
(in argument order) followed by the array declarations of the dimensioned
arguments (in argument order), regardless of how scalars and arrays are
interleaved in the routine's argument list — so scalars are declared before
any array that may use them in a dimension. -/
theorem c9_fortran_scalars_declared_before_arrays (r : Routine) :
    fDeclareArguments r =
      (r.arguments.filter (fun a => a.dimensionsOf.isEmpty)).map fScalarDeclLine ++
      (r.arguments.filter (fun a => !a.dimensionsOf.isEmpty)).map fArrayDeclLine := by
  unfold fDeclareArguments
  rw [fDeclArgLoop_eq]
  simp

/-! ## Claim C10: ufuncify argument partitioning -/

theorem isInOut_eq_false_of_isOutput {a : Argument} (h : a.isOutput = true) :
    a.isInOut = false := by
  cases a <;> simp_all [Argument.isOutput, Argument.isInOut]

theorem partitionLoop_ok (args : List Argument) : ∀ pin pout,
    (∀ a ∈ args, a.isInOut = false) →
    args.countP Argument.isOutput + pout.length ≤ 1 →
    partitionLoop args pin pout =
      Except.ok (pin ++ args.filter (fun a => !a.isOutput && !a.isInOut),
        pout ++ args.filter Argument.isOutput) := by
  induction args with
  | nil => intro pin pout _ _; simp [partitionLoop]
  | cons a rest ih =>
    intro pin pout hio hcount
    by_cases ho : a.isOutput
    · have hpe : pout = [] := by
        rw [List.countP_cons_of_pos _ _ ho] at hcount
        cases pout with
        | nil => rfl
        | cons x xs => simp at hcount; omega
      subst hpe
      rw [partitionLoop, if_pos ho]
      simp only [List.isEmpty_nil, if_true, List.nil_append]
      rw [ih _ _ (fun b hb => hio b (List.mem_cons_of_mem _ hb))
        (by rw [List.countP_cons_of_pos _ _ ho] at hcount; simpa using hcount)]
      have hnio : a.isInOut = false := hio a (List.mem_cons_self _ _)
      simp [List.filter_cons, ho, hnio]
    · have hnio : a.isInOut = false := hio a (List.mem_cons_self _ _)
      rw [partitionLoop, if_neg (by simp [ho]), if_neg (by simp [hnio])]
      rw [ih _ _ (fun b hb => hio b (List.mem_cons_of_mem _ hb))
        (by rw [List.countP_cons_of_neg _ _ (by simp [ho])] at hcount; exact hcount)]
      simp [List.filter_cons, ho, hnio, List.append_assoc]

theorem partitionLoop_error (args : List Argument) : ∀ pin pout,
    ((∃ a ∈ args, a.isInOut = true) ∨
      (1 ≤ args.countP Argument.isOutput ∧
        2 ≤ args.countP Argument.isOutput + pout.length)) →
    ∃ e, partitionLoop args pin pout = Except.error e := by
  induction args with
  | nil =>
    intro pin pout h
    rcases h with ⟨a, ha, _⟩ | ⟨h1, _⟩
    · simp at ha
    · simp at h1
  | cons a rest ih =>
    intro pin pout h
    by_cases ho : a.isOutput
    · cases hpe : pout with
      | nil =>
        rw [partitionLoop, if_pos ho]
        simp only [List.isEmpty_nil, if_true]
        apply ih
        rcases h with ⟨b, hb, hbio⟩ | ⟨_, h2⟩
        · rcases List.mem_cons.mp hb with rfl | hb
          · exact absurd hbio (by simp [isInOut_eq_false_of_isOutput ho])
          · exact Or.inl ⟨b, hb, hbio⟩
        · right
          rw [List.countP_cons_of_pos _ _ ho] at h2
          subst hpe
          simp only [List.length_nil, Nat.add_zero] at h2
          constructor
          · omega
          · simpa using h2
      | cons x xs =>
        rw [partitionLoop, if_pos ho, if_neg (by simp)]
        exact ⟨_, rfl⟩
    · by_cases hioa : a.isInOut
      · rw [partitionLoop, if_neg (by simp [ho]), if_pos (by simp [hioa])]
        exact ⟨_, rfl⟩
      · rw [partitionLoop, if_neg (by simp [ho]), if_neg (by simp [hioa])]
        apply ih
        rcases h with ⟨b, hb, hbio⟩ | ⟨h1, h2⟩
        · rcases List.mem_cons.mp hb with rfl | hb
          · exact absurd hbio (by simp [hioa])
          · exact Or.inl ⟨b, hb, hbio⟩
        · right
          rw [List.countP_cons_of_neg _ _ (by simp [ho])] at h1 h2
          exact ⟨h1, h2⟩

/-- C10: `UfuncifyCodeWrapper._partition_args` fails with a `ValueError`-kind
error exactly when the argument list contains an `InOutArgument` or more than
one `OutputArgument`; otherwise it returns the input arguments in order,
separated from the at-most-one output argument. -/
theorem c10_ufuncify_partition (args : List Argument) :
    if (∃ a ∈ args, a.isInOut = true) ∨ 2 ≤ args.countP Argument.isOutput then
      ∃ e, partitionArgs args = Except.error e
    else
      partitionArgs args =
        Except.ok (args.filter (fun a => !a.isOutput && !a.isInOut),
          args.filter Argument.isOutput) ∧
      (args.filter Argument.isOutput).length ≤ 1 := by
  by_cases h : (∃ a ∈ args, a.isInOut = true) ∨ 2 ≤ args.countP Argument.isOutput
  · rw [if_pos h]
    apply partitionLoop_error
    rcases h with h | h
    · exact Or.inl h
    · exact Or.inr ⟨by omega, by simpa using h⟩
  · rw [if_neg h]
    push_neg at h
    obtain ⟨hio, hcount⟩ := h
    have hio' : ∀ a ∈ args, a.isInOut = false := by
      intro a ha
      by_cases hc : a.isInOut
      · exact absurd hc (by simpa using hio a ha)
      · simpa using hc
    have hlen : (args.filter Argument.isOutput).length = args.countP Argument.isOutput := by
      simp [List.countP_eq_length_filter]
    constructor
    · have := partitionLoop_ok args [] [] hio' (by simpa using Nat.lt_succ_iff.mp hcount)
      simpa [partitionArgs] using this
    · omega

end Symcc
